import Mathlib

/-!
Verification of the Mach-O core-file process backend (`ProcessMachCore.cpp`).

The C++ plugin is embedded shallowly: each method becomes a Lean function
over explicit state, machine integers become `Nat` (address arithmetic in the
plugin never overflows 64 bits for the inputs considered; where the C++ code
compares against `LLDB_INVALID_ADDRESS` we use the same `2^64 - 1` sentinel
value), and fallible operations return `Option`.  External collaborators that
are not part of this repository's sources (the `RangeMap` container, the
object-file parser, the kernel-search callback) are modelled from the
specification and are marked as such in their doc comments.
-/

namespace MachCore

/-- Sentinel `LLDB_INVALID_ADDRESS`: the all-ones 64-bit sentinel for "unknown". -/
def LLDB_INVALID_ADDRESS : Nat := 2 ^ 64 - 1

/-- Bit `lldb::ePermissionsWritable = (1u << 0)`. -/
def ePermissionsWritable : Nat := 1

/-- Bit `lldb::ePermissionsReadable = (1u << 1)`. -/
def ePermissionsReadable : Nat := 2

/-- Bit `lldb::ePermissionsExecutable = (1u << 2)`. -/
def ePermissionsExecutable : Nat := 4

/-- Magic `llvm::MachO::MH_MAGIC`. -/
def MH_MAGIC : Nat := 0xfeedface

/-- Magic `llvm::MachO::MH_MAGIC_64`. -/
def MH_MAGIC_64 : Nat := 0xfeedfacf

/-- Magic `llvm::MachO::MH_CIGAM` (byte-swapped `MH_MAGIC`). -/
def MH_CIGAM : Nat := 0xcefaedfe

/-- Magic `llvm::MachO::MH_CIGAM_64` (byte-swapped `MH_MAGIC_64`). -/
def MH_CIGAM_64 : Nat := 0xcffaedfe

/-- Filetype `llvm::MachO::MH_EXECUTE`. -/
def MH_EXECUTE : Nat := 0x2

/-- Filetype `llvm::MachO::MH_CORE`. -/
def MH_CORE : Nat := 0x4

/-- Filetype `llvm::MachO::MH_DYLINKER`. -/
def MH_DYLINKER : Nat := 0x7

/-- Flag `llvm::MachO::MH_DYLDLINK`. -/
def MH_DYLDLINK : Nat := 0x4

/-- The `llvm::MachO::mach_header` struct: seven `uint32_t` fields
(`magic, cputype, cpusubtype, filetype, ncmds, sizeofcmds, flags`),
each 32 bits wide.  Field values are modelled as `Nat` below `2^32`. -/
structure MachHeader where
  magic : Nat
  cputype : Nat
  cpusubtype : Nat
  filetype : Nat
  ncmds : Nat
  sizeofcmds : Nat
  flags : Nat
deriving DecidableEq, Repr

/-- Byte widths of the seven `uint32_t` fields of `llvm::MachO::mach_header`. -/
def machHeaderFieldBytes : List Nat := [4, 4, 4, 4, 4, 4, 4]

/-- Byte widths of the eight `uint32_t` fields of `llvm::MachO::mach_header_64`
(the 32-bit header's fields plus the trailing `reserved` field). -/
def machHeader64FieldBytes : List Nat := machHeaderFieldBytes ++ [4]

/-- Size `sizeof(llvm::MachO::mach_header)`: the 32-bit Mach-O header size. -/
def sizeofMachHeader : Nat := machHeaderFieldBytes.sum

/-- Size `sizeof(llvm::MachO::mach_header_64)`: the 64-bit Mach-O header size. -/
def sizeofMachHeader64 : Nat := machHeader64FieldBytes.sum

/-- The byte count `ProcessMachCore::CreateInstance` requests from the start of
the candidate file: `const size_t header_size = sizeof(llvm::MachO::mach_header)`. -/
def createInstanceHeaderReadSize : Nat := sizeofMachHeader

/-- Helper `llvm::ByteSwap_32`: reverse the four bytes of a 32-bit value. -/
def byteSwap32 (x : Nat) : Nat :=
  (x % 2 ^ 8) * 2 ^ 24 + (x / 2 ^ 8 % 2 ^ 8) * 2 ^ 16 +
    (x / 2 ^ 16 % 2 ^ 8) * 2 ^ 8 + x / 2 ^ 24 % 2 ^ 8

/-- The field-wise byte swap `ProcessMachCore::GetDynamicLoaderAddress` applies
when the header magic is `MH_CIGAM` or `MH_CIGAM_64`. -/
def swapHeader (h : MachHeader) : MachHeader where
  magic := byteSwap32 h.magic
  cputype := byteSwap32 h.cputype
  cpusubtype := byteSwap32 h.cpusubtype
  filetype := byteSwap32 h.filetype
  ncmds := byteSwap32 h.ncmds
  sizeofcmds := byteSwap32 h.sizeofcmds
  flags := byteSwap32 h.flags

/-- The header value `GetDynamicLoaderAddress` works with after the optional
byte swap for `MH_CIGAM` / `MH_CIGAM_64` magics. -/
def effectiveHeader (h : MachHeader) : MachHeader :=
  if h.magic = MH_CIGAM ∨ h.magic = MH_CIGAM_64 then swapHeader h else h

/-- The discovery slots of `ProcessMachCore`: `m_dyld_addr` and
`m_mach_kernel_addr`, both initialised to `LLDB_INVALID_ADDRESS`. -/
structure DiscoveryState where
  dyldAddr : Nat
  machKernelAddr : Nat
deriving DecidableEq, Repr

/-- The initial discovery state built by the `ProcessMachCore` constructor. -/
def initialDiscoveryState : DiscoveryState :=
  ⟨LLDB_INVALID_ADDRESS, LLDB_INVALID_ADDRESS⟩

/-- Method `ProcessMachCore::GetDynamicLoaderAddress(addr)`.  Here `readHeader addr` models
`DoReadMemory(addr, &header, sizeof(header))`: `none` is a short read,
`some h` a full `sizeof(header)`-byte read reinterpreted as the header fields.
Returns the updated slots and the `bool` result of the C++ method. -/
def getDynamicLoaderAddress (readHeader : Nat → Option MachHeader)
    (st : DiscoveryState) (addr : Nat) : DiscoveryState × Bool :=
  match readHeader addr with
  | none => (st, false)
  | some h0 =>
    let h := effectiveHeader h0
    if h.magic = MH_MAGIC ∨ h.magic = MH_MAGIC_64 then
      if h.filetype = MH_DYLINKER then
        ({ st with dyldAddr := addr }, true)
      else if h.filetype = MH_EXECUTE ∧ h.flags &&& MH_DYLDLINK = 0 then
        ({ st with machKernelAddr := addr }, true)
      else (st, false)
    else (st, false)

/-- Whether a probe at `addr` takes the `MH_DYLINKER` branch of
`GetDynamicLoaderAddress` (a user-process dyld hit). -/
def isDylinkerHit (readHeader : Nat → Option MachHeader) (addr : Nat) : Bool :=
  match readHeader addr with
  | none => false
  | some h0 =>
    let h := effectiveHeader h0
    decide ((h.magic = MH_MAGIC ∨ h.magic = MH_MAGIC_64) ∧ h.filetype = MH_DYLINKER)

/-- Whether a probe at `addr` takes the kernel branch of
`GetDynamicLoaderAddress` (`MH_EXECUTE` without `MH_DYLDLINK`). -/
def isKernelHit (readHeader : Nat → Option MachHeader) (addr : Nat) : Bool :=
  match readHeader addr with
  | none => false
  | some h0 =>
    let h := effectiveHeader h0
    decide ((h.magic = MH_MAGIC ∨ h.magic = MH_MAGIC_64) ∧ h.filetype ≠ MH_DYLINKER ∧
      h.filetype = MH_EXECUTE ∧ h.flags &&& MH_DYLDLINK = 0)

/-- A memory image whose every page holds a little-endian 64-bit dyld header
(`MH_MAGIC_64`, `filetype = MH_DYLINKER`); used to exercise repeated hits. -/
def dylinkerEverywhere : Nat → Option MachHeader :=
  fun _ => some ⟨MH_MAGIC_64, 7, 3, MH_DYLINKER, 0, 0, 0⟩

/-- The `corefile_preference` policy knob read by `GetCorefilePreference`. -/
inductive CorefilePreference where
  | kernelCorefile
  | userCorefile
deriving DecidableEq, Repr

/-- Method `ProcessMachCore::GetImageInfoAddress()` as a function of the preference
and the two recorded slots. -/
def getImageInfoAddress (pref : CorefilePreference)
    (machKernelAddr dyldAddr : Nat) : Nat :=
  match pref with
  | .kernelCorefile =>
    if machKernelAddr ≠ LLDB_INVALID_ADDRESS then machKernelAddr else dyldAddr
  | .userCorefile =>
    if dyldAddr ≠ LLDB_INVALID_ADDRESS then dyldAddr else machKernelAddr

/-- The kernel-refinement step of `ProcessMachCore::DoLoadCore`: when a kernel
slot is set, save both slots, clear them to the invalid sentinel, consult
`DynamicLoaderDarwinKernel::SearchForDarwinKernel` (modelled as a function of
the two slot values it observes through `GetImageInfoAddress`), restore the
saved slots, and overwrite the kernel slot when the callback's answer is not
the invalid sentinel. -/
def refineKernelAddress (searchForDarwinKernel : Nat → Nat → Nat)
    (st : DiscoveryState) : DiscoveryState :=
  if st.machKernelAddr ≠ LLDB_INVALID_ADDRESS then
    let savedKernel := st.machKernelAddr
    let savedDyld := st.dyldAddr
    let cleared : DiscoveryState := initialDiscoveryState
    let better := searchForDarwinKernel cleared.machKernelAddr cleared.dyldAddr
    let restored : DiscoveryState := ⟨savedDyld, savedKernel⟩
    if better ≠ LLDB_INVALID_ADDRESS then
      { restored with machKernelAddr := better }
    else restored
  else st

/-- The session lifecycle states of the spec's ProcessFacade; `DoLoadCore`
failure leaves the session constructed but unloaded. -/
inductive SessionState where
  | candidate
  | loaded
  | loadFailed
deriving DecidableEq, Repr

/-- Method `ProcessMachCore::IsAlive()`: the body is `return true`, consulting no
state at all. -/
def isAlive (_ : SessionState) : Bool := true

/-- Method `ProcessMachCore::CreateInstance` restricted to its decision: `readResult`
models `crash_file->ReadFileContents(0, header_size)` (`none` on I/O error,
otherwise the bytes obtained, possibly short); `parseHeader` models the
external `ObjectFileMachO::ParseHeader` (modelled from the spec:
`parse_header(bytes) → header | fail`).  Returns whether a `ProcessMachCore`
candidate is produced. -/
def createInstanceAccepts (readResult : Option (List Nat))
    (parseHeader : List Nat → Option MachHeader) : Bool :=
  match readResult with
  | none => false
  | some bytes =>
    if bytes.length = createInstanceHeaderReadSize then
      match parseHeader bytes with
      | some hdr => decide (hdr.filetype = MH_CORE)
      | none => false
    else false

/-- A parser accepting exactly 28-byte buffers as an `MH_CORE` header; used to
exercise the detector. -/
def demoCoreParse : List Nat → Option MachHeader :=
  fun bytes =>
    if bytes.length = 28 then some ⟨MH_MAGIC_64, 7, 3, MH_CORE, 2, 0x200, 0⟩ else none

/-- The per-section data `DoLoadCore` reads from the object-file's section
list: `GetFileAddress` (the VM base), `GetByteSize`, `GetFileOffset`,
`GetFileSize`, and `GetPermissions`. -/
structure MCSection where
  fileAddress : Nat
  byteSize : Nat
  fileOffset : Nat
  fileSize : Nat
  permissions : Nat
deriving DecidableEq, Repr

/-- A `VMRangeToFileOffset::Entry`: a VM range `[base, base+size)` with the
attached file range `[fileOffset, fileOffset+fileSize)`. -/
structure SegEntry where
  base : Nat
  size : Nat
  fileOffset : Nat
  fileSize : Nat
deriving DecidableEq, Repr

/-- Accessor `Entry::GetRangeEnd()` of the VM range. -/
def SegEntry.rangeEnd (e : SegEntry) : Nat := e.base + e.size

/-- Accessor `Entry::data.GetRangeEnd()` — the end of the attached file range. -/
def SegEntry.fileRangeEnd (e : SegEntry) : Nat := e.fileOffset + e.fileSize

/-- A `VMRangeToPermissions::Entry`: a VM range with a permission bitmask. -/
structure PermEntry where
  base : Nat
  size : Nat
  perms : Nat
deriving DecidableEq, Repr

/-- End of a permission entry's VM range. -/
def PermEntry.rangeEnd (e : PermEntry) : Nat := e.base + e.size

/-- The loop state of `DoLoadCore`'s index construction: the
`ranges_are_sorted` flag, the running `vm_addr`, and the two indices
`m_core_aranges` / `m_core_range_infos`. -/
structure LoadState where
  rangesAreSorted : Bool
  vmAddr : Nat
  coreAranges : List SegEntry
  coreRangeInfos : List PermEntry
deriving DecidableEq, Repr

/-- The state entering `DoLoadCore`'s section loop:
`bool ranges_are_sorted = true; addr_t vm_addr = 0;` and empty indices. -/
def initialLoadState : LoadState := ⟨true, 0, [], []⟩

/-- The permission mask stored for a section: the section's own permissions,
or readable+executable when the recorded permissions are zero. -/
def permsOfSection (s : MCSection) : Nat :=
  if s.permissions = 0 then ePermissionsReadable ||| ePermissionsExecutable
  else s.permissions

/-- The `VMRangeToPermissions::Entry` appended for a section. -/
def permEntryOfSection (s : MCSection) : PermEntry :=
  ⟨s.fileAddress, s.byteSize, permsOfSection s⟩

/-- The segment-index update of one loop iteration: when a back entry exists
whose VM range ends at the new entry's base and whose file range ends at the
new entry's file offset, extend the back entry in place
(`SetRangeEnd` on both ranges); otherwise append the new entry. -/
def appendOrCoalesce (aranges : List SegEntry) (e : SegEntry) : List SegEntry :=
  match aranges.getLast? with
  | some last =>
    if last.rangeEnd = e.base ∧ last.fileRangeEnd = e.fileOffset then
      aranges.dropLast ++
        [⟨last.base, e.rangeEnd - last.base, last.fileOffset,
          e.fileRangeEnd - last.fileOffset⟩]
    else aranges ++ [e]
  | none => aranges ++ [e]

/-- One iteration of `DoLoadCore`'s section loop, as the source performs it: a
null section is skipped; otherwise the monotonicity flag is cleared when the
section's VM base is below the previous one, the segment entry is coalesced or
appended (with no look at the flag), and one permission entry is appended. -/
def loadCoreStep (st : LoadState) (osec : Option MCSection) : LoadState :=
  match osec with
  | none => st
  | some s =>
    let entry : SegEntry := ⟨s.fileAddress, s.byteSize, s.fileOffset, s.fileSize⟩
    let sorted := if st.vmAddr > s.fileAddress then false else st.rangesAreSorted
    { rangesAreSorted := sorted
      vmAddr := s.fileAddress
      coreAranges := appendOrCoalesce st.coreAranges entry
      coreRangeInfos := st.coreRangeInfos ++ [permEntryOfSection s] }

/-- One iteration of the section loop as the SPEC words it: "If `sorted` is
still true AND SegmentIndex has a back entry B with `B.vm_end == V` AND
`B.file_offset + B.file_size == F`, extend B in place.  Otherwise append."
This definition follows the spec's words, for comparison with `loadCoreStep`,
which is translated from the source. -/
def loadCoreStepSpec (st : LoadState) (osec : Option MCSection) : LoadState :=
  match osec with
  | none => st
  | some s =>
    let entry : SegEntry := ⟨s.fileAddress, s.byteSize, s.fileOffset, s.fileSize⟩
    let sorted := if st.vmAddr > s.fileAddress then false else st.rangesAreSorted
    { rangesAreSorted := sorted
      vmAddr := s.fileAddress
      coreAranges :=
        if sorted then appendOrCoalesce st.coreAranges entry
        else st.coreAranges ++ [entry]
      coreRangeInfos := st.coreRangeInfos ++ [permEntryOfSection s] }

/-- Modelled from the spec (the `RangeMap` container is not among the provided
sources): `sort()` is a stable sort by `vm_base`. -/
def sortSegEntries (l : List SegEntry) : List SegEntry :=
  l.insertionSort (fun a b => a.base ≤ b.base)

/-- Modelled from the spec (the `RangeMap` container is not among the provided
sources): `sort()` is a stable sort by `vm_base`. -/
def sortPermEntries (l : List PermEntry) : List PermEntry :=
  l.insertionSort (fun a b => a.base ≤ b.base)

/-- The index-construction portion of `DoLoadCore`: fold the section loop over
the section list, then sort both indices when the monotonicity flag was
cleared. -/
def doLoadCoreIndices (sections : List (Option MCSection)) : LoadState :=
  let final := sections.foldl loadCoreStep initialLoadState
  if final.rangesAreSorted then final
  else
    { final with
      coreAranges := sortSegEntries final.coreAranges
      coreRangeInfos := sortPermEntries final.coreRangeInfos }

/-- A three-section list whose second section is out of VM order (clearing the
monotonicity flag) and whose third section is VM- and file-adjacent to the
then-current back entry. -/
def cexSections : List (Option MCSection) :=
  [some ⟨0x3000, 0x1000, 0x0, 0x1000, 1⟩,
   some ⟨0x1000, 0x1000, 0x1000, 0x1000, 1⟩,
   some ⟨0x2000, 0x1000, 0x2000, 0x1000, 1⟩]

/-- Modelled from the spec (the `RangeMap` container is not among the provided
sources): `find_contains(a)` returns the entry whose half-open VM range
contains `a` — for the sorted, disjoint index this is the first such entry. -/
def findEntryThatContains (l : List SegEntry) (a : Nat) : Option SegEntry :=
  l.find? (fun e => decide (e.base ≤ a ∧ a < e.base + e.size))

/-- Modelled from the spec (the `RangeMap` container is not among the provided
sources): `find_contains_or_follows(a)` returns the first entry whose VM range
ends strictly after `a`. -/
def findEntryThatContainsOrFollows (l : List PermEntry) (a : Nat) : Option PermEntry :=
  l.find? (fun e => decide (a < e.base + e.size))

/-- Modelled from the spec (the object-file is an external collaborator):
`object_file.copy(file_offset, n, dst)` returns how many of the requested `n`
bytes it could copy — all of them when the file range is in bounds, the
remainder past `fileOffset` otherwise. -/
def copyData (coreFileSize fileOffset n : Nat) : Nat :=
  min n (coreFileSize - fileOffset)

/-- The `while (bytes_read < size)` loop of `ProcessMachCore::DoReadMemory`.
The error out-parameter is modelled as `Option Nat`: `some a` stands for the
message `"core file does not contain 0x<a>"`, `none` for no error set.
Returns the final `bytes_read` and the error. -/
def doReadMemoryLoop (aranges : List SegEntry) (coreFileSize addr size bytesRead : Nat) :
    Nat × Option Nat :=
  if h : bytesRead < size then
    match findEntryThatContains aranges (addr + bytesRead) with
    | some e =>
      let offset := addr + bytesRead - e.base
      let bytesLeft := e.base + e.size - (addr + bytesRead)
      let bytesToRead := min (size - bytesRead) bytesLeft
      let currBytesRead := copyData coreFileSize (e.fileOffset + offset) bytesToRead
      if hz : currBytesRead = 0 then (bytesRead, none)
      else doReadMemoryLoop aranges coreFileSize addr size (bytesRead + currBytesRead)
    | none =>
      if bytesRead = 0 then (bytesRead, some (addr + bytesRead))
      else (bytesRead, none)
  else (bytesRead, none)
termination_by size - bytesRead
decreasing_by
  simp_wf
  unfold currBytesRead bytesToRead bytesLeft offset at hz
  omega

/-- Method `ProcessMachCore::DoReadMemory(addr, buf, size)` against a loaded core:
starts the loop at `bytes_read = 0`. -/
def doReadMemory (aranges : List SegEntry) (coreFileSize addr size : Nat) :
    Nat × Option Nat :=
  doReadMemoryLoop aranges coreFileSize addr size 0

/-- The outcome of `ProcessMachCore::GetMemoryRegionInfo`: a populated region,
the cleared region of an (unreachable) fall-through branch, or the
`"invalid address"` error. -/
inductive RegionInfoResult where
  | region (base rangeEnd : Nat) (readable writable executable : Bool)
  | clearedRegion
  | invalidAddress
deriving DecidableEq, Repr

/-- Predicate `Flags::Test(bit)`: whether the mask has the given bit set. -/
def permTest (perms mask : Nat) : Bool := perms &&& mask ≠ 0

/-- Method `ProcessMachCore::GetMemoryRegionInfo(load_addr)` over the permission
index. -/
def getMemoryRegionInfo (infos : List PermEntry) (loadAddr : Nat) : RegionInfoResult :=
  match findEntryThatContainsOrFollows infos loadAddr with
  | some e =>
    if e.base ≤ loadAddr ∧ loadAddr < e.base + e.size then
      .region e.base (e.base + e.size)
        (permTest e.perms ePermissionsReadable)
        (permTest e.perms ePermissionsWritable)
        (permTest e.perms ePermissionsExecutable)
    else if loadAddr < e.base then
      .region loadAddr e.base false false false
    else .clearedRegion
  | none => .invalidAddress

/-- The permission index is sorted with disjoint ranges: each entry ends at or
before the next one's base (the post-`load` invariant of the spec's data
model). -/
def PermIndexSorted (l : List PermEntry) : Prop :=
  l.Pairwise (fun a b => a.base + a.size ≤ b.base)

/-- The two-entry permission index of the spec's region-query scenario. -/
def demoPermInfos : List PermEntry :=
  [⟨0x1000, 0x1000, ePermissionsReadable ||| ePermissionsExecutable⟩,
   ⟨0x4000, 0x1000, ePermissionsReadable⟩]

end MachCore

namespace MachCore

/-- C10: `is_alive()` returns `true` unconditionally in every session state —
candidate, loaded, or after a failed load — not only once loaded. -/
theorem isAlive_always_true : ∀ s : SessionState, isAlive s = true :=
  fun _ => rfl

/-- C9: the kernel-refinement step leaves `dyld_addr` unchanged in every case,
and leaves `kernel_addr` unchanged unless the external kernel-search callback
(consulted with both slots cleared to the invalid sentinel) returns a
non-invalid address, in which case `kernel_addr` becomes the callback's
result. -/
theorem refineKernelAddress_frame :
    ∀ (search : Nat → Nat → Nat) (st : DiscoveryState),
      (refineKernelAddress search st).dyldAddr = st.dyldAddr ∧
      ((refineKernelAddress search st).machKernelAddr = st.machKernelAddr ∨
        ((refineKernelAddress search st).machKernelAddr
            = search LLDB_INVALID_ADDRESS LLDB_INVALID_ADDRESS ∧
          search LLDB_INVALID_ADDRESS LLDB_INVALID_ADDRESS ≠ LLDB_INVALID_ADDRESS)) := by
  intro search st
  unfold refineKernelAddress initialDiscoveryState
  by_cases hk : st.machKernelAddr = LLDB_INVALID_ADDRESS <;>
    by_cases hs : search LLDB_INVALID_ADDRESS LLDB_INVALID_ADDRESS = LLDB_INVALID_ADDRESS <;>
    simp [hk, hs]

/-- C5: with the kernel preference the image-info address is `kernel_addr`
when valid, else `dyld_addr`; with the user preference it is `dyld_addr` when
valid, else `kernel_addr`; and it is the invalid sentinel exactly when neither
image was found. -/
theorem getImageInfoAddress_policy (k d : Nat) :
    (k ≠ LLDB_INVALID_ADDRESS →
      getImageInfoAddress .kernelCorefile k d = k) ∧
    (k = LLDB_INVALID_ADDRESS →
      getImageInfoAddress .kernelCorefile k d = d) ∧
    (d ≠ LLDB_INVALID_ADDRESS →
      getImageInfoAddress .userCorefile k d = d) ∧
    (d = LLDB_INVALID_ADDRESS →
      getImageInfoAddress .userCorefile k d = k) ∧
    (∀ pref : CorefilePreference,
      (getImageInfoAddress pref k d = LLDB_INVALID_ADDRESS ↔
        (k = LLDB_INVALID_ADDRESS ∧ d = LLDB_INVALID_ADDRESS))) := by
  refine ⟨?_, ?_, ?_, ?_, ?_⟩
  · intro hk; simp [getImageInfoAddress, hk]
  · intro hk; simp [getImageInfoAddress, hk]
  · intro hd; simp [getImageInfoAddress, hd]
  · intro hd; simp [getImageInfoAddress, hd]
  · intro pref
    cases pref <;>
      · by_cases hk : k = LLDB_INVALID_ADDRESS <;>
          by_cases hd : d = LLDB_INVALID_ADDRESS <;>
          simp [getImageInfoAddress, hk, hd]

/-- Witness for `getImageInfoAddress_policy` at a concrete valid kernel slot. -/
theorem getImageInfoAddress_policy_witness :
    getImageInfoAddress .kernelCorefile 0xffffff8000200000 LLDB_INVALID_ADDRESS
      = 0xffffff8000200000 :=
  (getImageInfoAddress_policy 0xffffff8000200000 LLDB_INVALID_ADDRESS).1 (by decide)

/-- C6 fails on the code: `CreateInstance` requests
`sizeof(llvm::MachO::mach_header)` bytes, which is 28 — the 32-bit header
size — not the larger 64-bit header size of 32 bytes. -/
theorem createInstanceHeaderReadSize_not_the_larger :
    createInstanceHeaderReadSize = 28 ∧
    ¬ createInstanceHeaderReadSize = sizeofMachHeader64 ∧
    sizeofMachHeader64 = 32 := by decide

/-- C6 amended: the Detector reads `sizeof(mach_header)` = 28 bytes — the
32-bit header size, the smaller of the two Mach-O header sizes — from the
start of the candidate file before parsing. -/
theorem createInstanceHeaderReadSize_is_32bit_header :
    createInstanceHeaderReadSize = sizeofMachHeader ∧
    sizeofMachHeader = 28 ∧
    sizeofMachHeader < sizeofMachHeader64 := by decide

/-- C7: the Detector produces a candidate exactly when the initial read
yielded the requested byte count, the header parsed, and the parsed filetype
is `MH_CORE`; an I/O error (no buffer) always rejects. -/
theorem createInstanceAccepts_iff :
    ∀ (readResult : Option (List Nat)) (parseHeader : List Nat → Option MachHeader),
      (createInstanceAccepts readResult parseHeader = true ↔
        ∃ bytes hdr, readResult = some bytes ∧
          bytes.length = createInstanceHeaderReadSize ∧
          parseHeader bytes = some hdr ∧ hdr.filetype = MH_CORE) ∧
      createInstanceAccepts none parseHeader = false := by
  intro readResult parseHeader
  refine ⟨⟨?_, ?_⟩, rfl⟩
  · intro hacc
    cases readResult with
    | none => exact absurd hacc (by simp [createInstanceAccepts])
    | some bytes =>
      by_cases hlen : bytes.length = createInstanceHeaderReadSize
      · cases hp : parseHeader bytes with
        | none => simp [createInstanceAccepts, hlen, hp] at hacc
        | some hdr =>
          refine ⟨bytes, hdr, rfl, hlen, hp, ?_⟩
          simpa [createInstanceAccepts, hlen, hp] using hacc
      · simp [createInstanceAccepts, hlen] at hacc
  · rintro ⟨bytes, hdr, rfl, hlen, hp, hft⟩
    simp [createInstanceAccepts, hlen, hp, hft]

/-- Witness for `createInstanceAccepts_iff`: a 28-byte buffer parsed as an
`MH_CORE` header is accepted. -/
theorem createInstanceAccepts_iff_witness :
    createInstanceAccepts (some (List.replicate 28 0)) demoCoreParse = true :=
  ((createInstanceAccepts_iff (some (List.replicate 28 0)) demoCoreParse).1).mpr
    ⟨List.replicate 28 0, ⟨MH_MAGIC_64, 7, 3, MH_CORE, 2, 0x200, 0⟩, rfl,
      by decide, by decide, rfl⟩

/-- C3 fails on the code: with a dyld header on every page, a probe at
`0x1000` records `dyld_addr = 0x1000`, and a second probe — a later hit on
the same slot, returning `true` — changes the recorded address to `0x2000`. -/
theorem getDynamicLoaderAddress_later_hit_overwrites :
    ((getDynamicLoaderAddress dylinkerEverywhere initialDiscoveryState 0x1000).1).dyldAddr
        = 0x1000 ∧
    (getDynamicLoaderAddress dylinkerEverywhere
        (getDynamicLoaderAddress dylinkerEverywhere initialDiscoveryState 0x1000).1
        0x2000).2 = true ∧
    ((getDynamicLoaderAddress dylinkerEverywhere
        (getDynamicLoaderAddress dylinkerEverywhere initialDiscoveryState 0x1000).1
        0x2000).1).dyldAddr = 0x2000 ∧
    ¬ (0x2000 : Nat) = 0x1000 := by decide

/-- C3 amended: every accepted hit overwrites its slot with the probed
address — the most recent hit is the one recorded — and a slot is only ever
left unchanged or set to the probed address. -/
theorem getDynamicLoaderAddress_records_last_hit :
    ∀ (readHeader : Nat → Option MachHeader) (st : DiscoveryState) (addr : Nat),
      (isDylinkerHit readHeader addr = false ∨
        (getDynamicLoaderAddress readHeader st addr).1.dyldAddr = addr) ∧
      (isKernelHit readHeader addr = false ∨
        (getDynamicLoaderAddress readHeader st addr).1.machKernelAddr = addr) ∧
      ((getDynamicLoaderAddress readHeader st addr).1.dyldAddr = st.dyldAddr ∨
        (getDynamicLoaderAddress readHeader st addr).1.dyldAddr = addr) ∧
      ((getDynamicLoaderAddress readHeader st addr).1.machKernelAddr = st.machKernelAddr ∨
        (getDynamicLoaderAddress readHeader st addr).1.machKernelAddr = addr) := by
  intro readHeader st addr
  cases hrh : readHeader addr with
  | none => simp [getDynamicLoaderAddress, isDylinkerHit, isKernelHit, hrh]
  | some h0 =>
    by_cases hm : (effectiveHeader h0).magic = MH_MAGIC ∨ (effectiveHeader h0).magic = MH_MAGIC_64
    · by_cases hd : (effectiveHeader h0).filetype = MH_DYLINKER
      · simp [getDynamicLoaderAddress, isDylinkerHit, isKernelHit, hrh, hm, hd]
      · by_cases hk : (effectiveHeader h0).filetype = MH_EXECUTE ∧
            (effectiveHeader h0).flags &&& MH_DYLDLINK = 0
        · simp [getDynamicLoaderAddress, isDylinkerHit, isKernelHit, hrh, hm, hd, hk,
            MH_EXECUTE, MH_DYLINKER]
        · simp [getDynamicLoaderAddress, isDylinkerHit, isKernelHit, hrh, hm, hd, hk]
    · simp [getDynamicLoaderAddress, isDylinkerHit, isKernelHit, hrh, hm]

/-- C2 fails on the code: on `cexSections` the monotonicity flag is already
`false` when the third section arrives, yet the section-loop still merges it
into the back entry (two entries instead of three); the spec-worded step,
which merges only while the flag is true, keeps all three entries. -/
theorem loadCoreStep_merges_despite_cleared_flag :
    (cexSections.foldl loadCoreStep initialLoadState).rangesAreSorted = false ∧
    (cexSections.foldl loadCoreStep initialLoadState).coreAranges =
      [⟨0x3000, 0x1000, 0x0, 0x1000⟩, ⟨0x1000, 0x2000, 0x1000, 0x2000⟩] ∧
    (cexSections.foldl loadCoreStepSpec initialLoadState).coreAranges =
      [⟨0x3000, 0x1000, 0x0, 0x1000⟩, ⟨0x1000, 0x1000, 0x1000, 0x1000⟩,
       ⟨0x2000, 0x1000, 0x2000, 0x1000⟩] := by decide

/-- C2 amended: a new section entry is merged into the previous back entry
exactly when VM-adjacency and file-adjacency hold — the sorted monotonicity
flag plays no part in the decision; clearing it only causes the indices to be
sorted after the loop. -/
theorem loadCoreStep_merge_ignores_flag :
    ∀ (st : LoadState) (b : Bool) (s : MCSection),
      ((loadCoreStep { st with rangesAreSorted := b } (some s)).coreAranges =
        (loadCoreStep st (some s)).coreAranges) ∧
      ((loadCoreStep st (some s)).coreAranges.length =
        match st.coreAranges.getLast? with
        | some last =>
          if last.rangeEnd = s.fileAddress ∧ last.fileRangeEnd = s.fileOffset then
            st.coreAranges.length
          else st.coreAranges.length + 1
        | none => st.coreAranges.length + 1) := by
  intro st b s
  refine ⟨rfl, ?_⟩
  unfold loadCoreStep appendOrCoalesce
  cases hl : st.coreAranges.getLast? with
  | none => simp
  | some last =>
    have hne : st.coreAranges ≠ [] := by
      intro hnil
      rw [hnil] at hl
      exact absurd hl (by simp)
    have hpos : 0 < st.coreAranges.length := List.length_pos.mpr hne
    by_cases hadj : last.rangeEnd = s.fileAddress ∧ last.fileRangeEnd = s.fileOffset
    · simp only [hadj, if_true, and_self, List.length_append, List.length_dropLast,
        List.length_cons, List.length_nil]
      omega
    · simp [hadj]

/-- The permission index accumulated by the section loop: the entries appended
so far, in order, one per non-null section. -/
theorem foldl_loadCoreStep_rangeInfos :
    ∀ (sections : List (Option MCSection)) (st : LoadState),
      (sections.foldl loadCoreStep st).coreRangeInfos =
        st.coreRangeInfos ++ (sections.filterMap id).map permEntryOfSection := by
  intro sections
  induction sections with
  | nil => intro st; simp
  | cons osec rest ih =>
    intro st
    cases osec with
    | none => simpa using ih st
    | some s =>
      have : (loadCoreStep st (some s)).coreRangeInfos =
          st.coreRangeInfos ++ [permEntryOfSection s] := rfl
      simp [List.foldl_cons, ih, this, List.append_assoc]

/-- C8: the loop appends exactly one permission entry per non-null section,
in order, carrying the section's VM range and its permissions — with zero
permissions replaced by readable+executable — and the final (possibly sorted)
permission index is a permutation of those per-section entries: nothing is
ever coalesced. -/
theorem permission_entries_one_per_section :
    ∀ sections : List (Option MCSection),
      (sections.foldl loadCoreStep initialLoadState).coreRangeInfos =
        (sections.filterMap id).map (fun s =>
          ⟨s.fileAddress, s.byteSize,
            if s.permissions = 0 then ePermissionsReadable ||| ePermissionsExecutable
            else s.permissions⟩) ∧
      ((doLoadCoreIndices sections).coreRangeInfos).Perm
        ((sections.filterMap id).map permEntryOfSection) := by
  intro sections
  have hfold := foldl_loadCoreStep_rangeInfos sections initialLoadState
  have hmap : (sections.filterMap id).map permEntryOfSection =
      (sections.filterMap id).map (fun s =>
        ⟨s.fileAddress, s.byteSize,
          if s.permissions = 0 then ePermissionsReadable ||| ePermissionsExecutable
          else s.permissions⟩) := by
    simp [permEntryOfSection, permsOfSection]
  constructor
  · rw [hfold, hmap]
    simp [initialLoadState]
  · unfold doLoadCoreIndices
    by_cases hs : (sections.foldl loadCoreStep initialLoadState).rangesAreSorted
    · simp only [hs, if_true]
      rw [hfold]
      simp [initialLoadState]
    · simp only [hs, if_false, Bool.false_eq_true]
      refine (List.perm_insertionSort _ _).trans ?_
      rw [hfold]
      simp [initialLoadState]

/-- The sparse-read loop: the final count never exceeds `size`, never shrinks
below the entry count, and an error arises only in an iteration where nothing
had yet been read and the current (= first) address is unmapped. -/
theorem doReadMemoryLoop_spec :
    ∀ (n : Nat) (aranges : List SegEntry) (coreFileSize addr size bytesRead : Nat),
      size - bytesRead ≤ n → bytesRead ≤ size →
      (doReadMemoryLoop aranges coreFileSize addr size bytesRead).1 ≤ size ∧
      ((doReadMemoryLoop aranges coreFileSize addr size bytesRead).2 = none ∨
        ((doReadMemoryLoop aranges coreFileSize addr size bytesRead).1 = bytesRead ∧
          bytesRead = 0 ∧
          (doReadMemoryLoop aranges coreFileSize addr size bytesRead).2 = some addr ∧
          findEntryThatContains aranges addr = none)) := by
  intro n
  induction n with
  | zero =>
    intro aranges coreFileSize addr size bytesRead hn hb
    have hnlt : ¬ bytesRead < size := by omega
    rw [doReadMemoryLoop, dif_neg hnlt]
    exact ⟨hb, Or.inl rfl⟩
  | succ n ih =>
    intro aranges coreFileSize addr size bytesRead hn hb
    rw [doReadMemoryLoop]
    by_cases hlt : bytesRead < size
    · rw [dif_pos hlt]
      cases hfind : findEntryThatContains aranges (addr + bytesRead) with
      | none =>
        simp only [hfind]
        by_cases hz : bytesRead = 0
        · rw [if_pos hz]
          subst hz
          refine ⟨by omega, Or.inr ⟨rfl, rfl, by simp, by simpa using hfind⟩⟩
        · rw [if_neg hz]
          exact ⟨hb, Or.inl rfl⟩
      | some e =>
        simp only [hfind]
        by_cases hz : copyData coreFileSize
            (e.fileOffset + (addr + bytesRead - e.base))
            (min (size - bytesRead) (e.base + e.size - (addr + bytesRead))) = 0
        · rw [dif_pos hz]
          exact ⟨hb, Or.inl rfl⟩
        · rw [dif_neg hz]
          have hgle : copyData coreFileSize
              (e.fileOffset + (addr + bytesRead - e.base))
              (min (size - bytesRead) (e.base + e.size - (addr + bytesRead))) ≤
              size - bytesRead :=
            le_trans (Nat.min_le_left _ _) (Nat.min_le_left _ _)
          have h1 : size - (bytesRead + copyData coreFileSize
              (e.fileOffset + (addr + bytesRead - e.base))
              (min (size - bytesRead) (e.base + e.size - (addr + bytesRead)))) ≤ n := by
            omega
          have h2 : bytesRead + copyData coreFileSize
              (e.fileOffset + (addr + bytesRead - e.base))
              (min (size - bytesRead) (e.base + e.size - (addr + bytesRead))) ≤ size := by
            omega
          have hrec := ih aranges coreFileSize addr size _ h1 h2
          refine ⟨hrec.1, ?_⟩
          rcases hrec.2 with hnone | ⟨_, habs, _, _⟩
          · exact Or.inl hnone
          · omega
    · rw [dif_neg hlt]
      exact ⟨hb, Or.inl rfl⟩

/-- C1: `read(addr, size)` returns a byte count of at most `size`; either no
error is set, or nothing was read, the error names the very first address, and
that first address is unmapped — so a read that starts mapped and spans into a
gap yields a short count with no error. -/
theorem doReadMemory_spec :
    ∀ (aranges : List SegEntry) (coreFileSize addr size : Nat),
      (doReadMemory aranges coreFileSize addr size).1 ≤ size ∧
      ((doReadMemory aranges coreFileSize addr size).2 = none ∨
        ((doReadMemory aranges coreFileSize addr size).1 = 0 ∧
          (doReadMemory aranges coreFileSize addr size).2 = some addr ∧
          findEntryThatContains aranges addr = none)) := by
  intro aranges coreFileSize addr size
  have h := doReadMemoryLoop_spec size aranges coreFileSize addr size 0
    (by omega) (Nat.zero_le _)
  rcases h with ⟨h1, h2⟩
  refine ⟨h1, ?_⟩
  rcases h2 with hnone | ⟨hcnt, _, herr, hfind⟩
  · exact Or.inl hnone
  · exact Or.inr ⟨hcnt, herr, hfind⟩

/-- On a sorted, disjoint permission index, the contains-or-follows lookup
finds exactly the entry containing the queried address. -/
theorem findEntryThatContainsOrFollows_of_contains :
    ∀ (infos : List PermEntry) (a : Nat), PermIndexSorted infos →
      ∀ e ∈ infos, e.base ≤ a → a < e.base + e.size →
      findEntryThatContainsOrFollows infos a = some e := by
  intro infos a hsorted e hmem hle hlt
  induction infos with
  | nil => cases hmem
  | cons hd tl ih =>
    rw [PermIndexSorted, List.pairwise_cons] at hsorted
    cases List.mem_cons.mp hmem with
    | inl heq =>
      subst heq
      unfold findEntryThatContainsOrFollows
      rw [List.find?_cons, decide_eq_true hlt]
    | inr htl =>
      have hskip : ¬ a < hd.base + hd.size := by
        have := hsorted.1 e htl
        omega
      have htail := ih hsorted.2 htl
      unfold findEntryThatContainsOrFollows at htail ⊢
      rw [List.find?_cons, decide_eq_false hskip]
      exact htail

/-- C4: on a sorted, disjoint permission index, `get_region_info(a)` returns
the containing entry's bounds and R/W/X flags when some entry contains `a`;
returns the synthetic no-access gap `[a, e.base)` when the first entry ending
after `a` starts beyond `a`; and returns the invalid-address error when `a`
lies past every permission entry. -/
theorem getMemoryRegionInfo_spec (infos : List PermEntry) (a : Nat)
    (hsorted : PermIndexSorted infos) :
    (∀ e ∈ infos, e.base ≤ a → a < e.base + e.size →
      getMemoryRegionInfo infos a =
        .region e.base (e.base + e.size)
          (permTest e.perms ePermissionsReadable)
          (permTest e.perms ePermissionsWritable)
          (permTest e.perms ePermissionsExecutable)) ∧
    (∀ e, findEntryThatContainsOrFollows infos a = some e → a < e.base →
      getMemoryRegionInfo infos a = .region a e.base false false false) ∧
    ((∀ e ∈ infos, e.base + e.size ≤ a) →
      getMemoryRegionInfo infos a = .invalidAddress) := by
  refine ⟨?_, ?_, ?_⟩
  · intro e hmem hle hlt
    have hfind := findEntryThatContainsOrFollows_of_contains infos a hsorted e hmem hle hlt
    unfold getMemoryRegionInfo
    simp only [hfind]
    rw [if_pos ⟨hle, hlt⟩]
  · intro e hfind hgap
    unfold getMemoryRegionInfo
    simp only [hfind]
    rw [if_neg (by omega), if_pos hgap]
  · intro hall
    have hnone : findEntryThatContainsOrFollows infos a = none := by
      unfold findEntryThatContainsOrFollows
      rw [List.find?_eq_none]
      intro x hx
      have hxle := hall x hx
      simp only [decide_eq_true_eq]
      omega
    unfold getMemoryRegionInfo
    simp only [hnone]

/-- Witness for `getMemoryRegionInfo_spec`: the spec's region-query scenario,
queried inside the first entry. -/
theorem getMemoryRegionInfo_spec_witness :
    getMemoryRegionInfo demoPermInfos 0x1800 =
      .region 0x1000 0x2000 true false true :=
  (getMemoryRegionInfo_spec demoPermInfos 0x1800
      (by simp [PermIndexSorted, demoPermInfos, List.pairwise_cons])).1
    ⟨0x1000, 0x1000, ePermissionsReadable ||| ePermissionsExecutable⟩
    (by decide) (by decide) (by decide)

end MachCore
